import Mathlib

/-!
Verification of the glow ExecutionEngine layer
(include/glow/ExecutionEngine/ExecutionEngine.h).

The repository tree contains the class header only; the method bodies live in
ExecutionEngine.cpp, which is absent.  Definitions whose deciding code is
absent are therefore modelled from the specification document and carry a doc
comment starting with the words Modelled from the spec.  The one inline body
present in the header, isOpSupported, is embedded directly from the source.

Machine integers (size_t) are modelled as Nat: every counter in the claims
only grows, so no overflow wrapping is observable at the quantities involved.
-/

namespace Glow

/-- Operator kind tag (Kinded::Kind in the C++ sources, which are outside this
tree); opaque to the engine, modelled as a natural number. -/
abbrev OpKind := Nat

/-- Element type tag (ElemKind in the C++ sources, outside this tree); opaque
to the engine, modelled as a natural number. -/
abbrev ElemKind := Nat

/-- Modelled from the spec: the target-kind enumeration used for backend
selection (interpreter, vectorized CPU, accelerator); Backend.h is outside
this tree.  The header shows BackendKind::Interpreter as the constructor
default. -/
inductive BackendKind where
  | Interpreter
  | CPU
  | OpenCL
deriving DecidableEq, Repr

/-- A backend instance.  bid is the instance identity (the C++ pointer),
used to track lifetime; isOpSupported is the capability predicate the engine
delegates to. -/
structure Backend where
  bid : Nat
  kind : BackendKind
  isOpSupported : OpKind → ElemKind → Bool

/-- A compiled artifact is opaque to everything but the backend that produced
it; modelled as a bare identifier. -/
abbrev CompiledFunction := Nat

/-- A source Function is addressed by its name only in the claims. -/
structure GlowFunction where
  name : String
deriving DecidableEq, Repr

/-- Compilation mode flag selecting optimizer behavior. -/
inductive CompilationMode where
  | Infer
  | Train
deriving DecidableEq, Repr

/-- A tensor; the claims only inspect shapes, so contents are not modelled. -/
structure Tensor where
  dims : List Nat
deriving DecidableEq, Repr

/-- A named, typed input slot of the graph. -/
structure Placeholder where
  name : String
  dims : List Nat
deriving DecidableEq, Repr

/-- Execution-time bindings: mapping from placeholder identity (its name,
unique in a module) to a concrete tensor. -/
abbrev Context := List (String × Tensor)

/-- The error kinds of the design (spec section 7). -/
inductive GlowError where
  | ConfigurationError
  | LookupError
  | ShapeMismatchError
  | CompilationError
  | IOError
deriving DecidableEq, Repr

/-- Overwrite-or-insert on an association list keyed by strings; the update
semantics of llvm::StringMap insertion and of context binding. -/
def updateAssoc {β : Type} (l : List (String × β)) (k : String) (v : β) :
    List (String × β) :=
  match l with
  | [] => [(k, v)]
  | (k', v') :: rest =>
      if k' = k then (k, v) :: rest else (k', v') :: updateAssoc rest k v

/-- The engine state visible to the claims: active backend, the ownership
flag, and the name-keyed registry of compiled functions (header lines 42-49). -/
structure ExecutionEngine where
  backend_ : Backend
  ownsBackend_ : Bool
  compiledFunctions_ : List (String × CompiledFunction)

/-!  runBatch (header lines 129-143; body in ExecutionEngine.cpp, absent). -/

/-- One observable action of runBatch: binding the slice at a given offset
into the context, or one execution of the engine. -/
inductive BatchEvent where
  | bound (offset : Nat)
  | ran
deriving DecidableEq, Repr

/-- Modelled from the spec: the per-iteration loop of runBatch
(ExecutionEngine.cpp is absent from this tree).  Each iteration computes
offset = sampleCounter % batchSize, binds the slice at that offset into the
context, runs the engine once, and increments sampleCounter by one. -/
def runBatchLoop (batchSize : Nat) : Nat → Nat → List BatchEvent × Nat
  | 0, c => ([], c)
  | n + 1, c =>
      let offset := c % batchSize
      let rest := runBatchLoop batchSize n (c + 1)
      (BatchEvent.bound offset :: BatchEvent.ran :: rest.1, rest.2)

/-- The first-dimension extent of the batch inputs (spec: batchSize is the
first-dimension extent of the batch inputs). -/
def batchSizeOf (inputs : List Tensor) : Nat :=
  match inputs with
  | [] => 0
  | t :: _ => t.dims.headD 0

/-- Modelled from the spec: runBatch(EE, ctx, iterations, sampleCounter, ph,
inputs) runs the loop above with the batch size taken from the inputs,
returning the event trace and the final value of the in/out counter. -/
def runBatch (iterations : Nat) (sampleCounter : Nat)
    (inputs : List Tensor) : List BatchEvent × Nat :=
  runBatchLoop (batchSizeOf inputs) iterations sampleCounter

/-- The offsets used by a trace, in order. -/
def offsetsOf (evs : List BatchEvent) : List Nat :=
  evs.filterMap fun e =>
    match e with
    | BatchEvent.bound o => some o
    | BatchEvent.ran => none

/-- The number of engine executions in a trace. -/
def runsOf (evs : List BatchEvent) : Nat :=
  evs.countP fun e =>
    match e with
    | BatchEvent.ran => true
    | _ => false

lemma runBatchLoop_closed (bs : Nat) :
    ∀ (n c : Nat),
      runBatchLoop bs n c =
        ((List.range n).flatMap
            (fun i => [BatchEvent.bound ((c + i) % bs), BatchEvent.ran]),
          c + n) := by
  intro n
  induction n with
  | zero => intro c; simp [runBatchLoop]
  | succ k ih =>
      intro c
      have hfun :
          (fun a => [BatchEvent.bound ((c + (a + 1)) % bs), BatchEvent.ran]) =
            (fun i => [BatchEvent.bound ((c + 1 + i) % bs), BatchEvent.ran]) := by
        funext i
        have h : c + (i + 1) = c + 1 + i := by omega
        rw [h]
      simp only [runBatchLoop, ih (c + 1), List.range_succ_eq_map,
        List.flatMap_cons, List.flatMap_map, Nat.succ_eq_add_one]
      rw [hfun]
      simp
      omega

lemma offsetsOf_flatMap_pair (l : List Nat) (g : Nat → Nat) :
    offsetsOf (l.flatMap fun i => [BatchEvent.bound (g i), BatchEvent.ran]) =
      l.map g := by
  induction l with
  | nil => simp [offsetsOf]
  | cons a t ih =>
      simp only [List.flatMap_cons, List.map_cons, offsetsOf,
        List.filterMap_append] at *
      simp [ih]

lemma runsOf_flatMap_pair (l : List Nat) (g : Nat → Nat) :
    runsOf (l.flatMap fun i => [BatchEvent.bound (g i), BatchEvent.ran]) =
      l.length := by
  induction l with
  | nil => simp [runsOf]
  | cons a t ih =>
      simp only [List.flatMap_cons, runsOf, List.countP_append] at *
      simp [ih, List.countP_cons]
      omega

lemma runBatchLoop_add (bs : Nat) :
    ∀ (m n c : Nat),
      runBatchLoop bs (m + n) c =
        ((runBatchLoop bs m c).1 ++
            (runBatchLoop bs n (runBatchLoop bs m c).2).1,
          (runBatchLoop bs n (runBatchLoop bs m c).2).2) := by
  intro m
  induction m with
  | zero => intro n c; simp [runBatchLoop]
  | succ k ih =>
      intro n c
      have h : k + 1 + n = (k + n) + 1 := by omega
      rw [h]
      simp only [runBatchLoop, ih n (c + 1)]
      simp

/-- C1: every call runBatch(engine, context, iterations, sampleCounter, ph,
inputs) performs, per iteration, a slice binding at offset
sampleCounter % batchSize (batchSize the first-dimension extent of the batch
inputs) followed by exactly one engine run, then increments the counter by
one; in particular with batchSize 4, iterations 10 and counter starting at 0
the offsets used are 0,1,2,3,0,1,2,3,0,1 and the counter equals 10 on
return. -/
theorem runBatch_per_iteration (iterations c0 : Nat) (inputs : List Tensor) :
    (runBatch iterations c0 inputs).1 =
        (List.range iterations).flatMap
          (fun i => [BatchEvent.bound ((c0 + i) % batchSizeOf inputs),
                     BatchEvent.ran]) ∧
    offsetsOf (runBatch iterations c0 inputs).1 =
        (List.range iterations).map (fun i => (c0 + i) % batchSizeOf inputs) ∧
    runsOf (runBatch iterations c0 inputs).1 = iterations ∧
    (runBatch iterations c0 inputs).2 = c0 + iterations ∧
    (offsetsOf (runBatch 10 0 [Tensor.mk [4, 2]]).1 =
        [0, 1, 2, 3, 0, 1, 2, 3, 0, 1] ∧
      (runBatch 10 0 [Tensor.mk [4, 2]]).2 = 10) := by
  refine ⟨?_, ?_, ?_, ?_, by decide, by decide⟩
  · simp [runBatch, runBatchLoop_closed]
  · simp [runBatch, runBatchLoop_closed, offsetsOf_flatMap_pair]
  · simp [runBatch, runBatchLoop_closed, runsOf_flatMap_pair]
  · simp [runBatch, runBatchLoop_closed]

/-- C2: runBatch is resumable: a call with m iterations followed by a call
with n iterations, resuming from the returned counter, produces the same
event trace and the same final counter as one call with m + n iterations; in
particular a call of 3 iterations from counter 10 with batch size 4 uses
offsets 2,3,0 and ends with counter 13. -/
theorem runBatch_resumable (m n c0 : Nat) (inputs : List Tensor) :
    (runBatch (m + n) c0 inputs).1 =
        (runBatch m c0 inputs).1 ++
          (runBatch n (runBatch m c0 inputs).2 inputs).1 ∧
    (runBatch (m + n) c0 inputs).2 =
        (runBatch n (runBatch m c0 inputs).2 inputs).2 ∧
    (offsetsOf (runBatch 3 10 [Tensor.mk [4, 2]]).1 = [2, 3, 0] ∧
      (runBatch 3 10 [Tensor.mk [4, 2]]).2 = 13) := by
  refine ⟨?_, ?_, by decide, by decide⟩
  · simp [runBatch, runBatchLoop_add (batchSizeOf inputs) m n c0]
  · simp [runBatch, runBatchLoop_add (batchSizeOf inputs) m n c0]

/-!  updateInputPlaceholders (header lines 117-120; body absent). -/

/-- Modelled from the spec: updateInputPlaceholders(ctx, ph, inputs) checks
every supplied tensor's shape against its placeholder's declared shape and,
when all match, overwrites each listed placeholder's binding in the context
with the corresponding tensor; on any mismatch it reports ShapeMismatchError
and leaves the context unchanged (all-or-nothing, spec section 8).  The body
lives in ExecutionEngine.cpp, absent from this tree. -/
def updateInputPlaceholders (ctx : Context) (ph : List Placeholder)
    (inputs : List Tensor) : Option GlowError × Context :=
  if (ph.zip inputs).all (fun pt => pt.2.dims == pt.1.dims) then
    (none,
      (ph.zip inputs).foldl (fun c pt => updateAssoc c pt.1.name pt.2) ctx)
  else (some GlowError.ShapeMismatchError, ctx)

lemma lookup_updateAssoc_self {β : Type} (l : List (String × β)) (k : String)
    (v : β) : (updateAssoc l k v).lookup k = some v := by
  induction l with
  | nil => simp [updateAssoc, List.lookup]
  | cons p rest ih =>
      obtain ⟨a, b⟩ := p
      by_cases h : a = k
      · simp [updateAssoc, h, List.lookup]
      · have hb : (k == a) = false := by
          simp [Ne.symm h]
        simp [updateAssoc, h, List.lookup, hb, ih]

lemma lookup_updateAssoc_ne {β : Type} (l : List (String × β)) (k k' : String)
    (v : β) (h : k' ≠ k) :
    (updateAssoc l k v).lookup k' = l.lookup k' := by
  have hb : (k' == k) = false := by simp [h]
  induction l with
  | nil => simp [updateAssoc, List.lookup, hb]
  | cons p rest ih =>
      obtain ⟨a, b⟩ := p
      by_cases ha : a = k
      · subst ha
        simp [updateAssoc, List.lookup, hb]
      · simp [updateAssoc, ha, List.lookup, ih]

lemma foldl_update_lookup_notin (ps : List (Placeholder × Tensor)) :
    ∀ (ctx : Context) (n : String), (∀ pt ∈ ps, pt.1.name ≠ n) →
      (ps.foldl (fun c pt => updateAssoc c pt.1.name pt.2) ctx).lookup n =
        ctx.lookup n := by
  induction ps with
  | nil => intro ctx n _; rfl
  | cons hd rest ih =>
      intro ctx n h
      have hhd : hd.1.name ≠ n := h hd (List.mem_cons_self hd rest)
      have hrest : ∀ pt ∈ rest, pt.1.name ≠ n := by
        intro pt hpt
        exact h pt (List.mem_cons_of_mem hd hpt)
      simp only [List.foldl_cons]
      rw [ih (updateAssoc ctx hd.1.name hd.2) n hrest]
      exact lookup_updateAssoc_ne ctx hd.1.name n hd.2 (Ne.symm hhd)

lemma foldl_update_lookup_mem (ps : List (Placeholder × Tensor)) :
    ∀ (ctx : Context), (ps.map fun pt => pt.1.name).Nodup →
      ∀ (p : Placeholder) (t : Tensor), (p, t) ∈ ps →
        (ps.foldl (fun c pt => updateAssoc c pt.1.name pt.2) ctx).lookup
            p.name = some t := by
  induction ps with
  | nil => intro ctx _ p t hmem; cases hmem
  | cons hd rest ih =>
      intro ctx hnd p t hmem
      simp only [List.map_cons, List.nodup_cons] at hnd
      rcases List.mem_cons.mp hmem with heq | hmemr
      · subst heq
        simp only [List.foldl_cons]
        have hrest : ∀ pt ∈ rest, pt.1.name ≠ p.name := by
          intro pt hpt hcontra
          exact hnd.1 (hcontra ▸ List.mem_map_of_mem (fun q => q.1.name) hpt)
        rw [foldl_update_lookup_notin rest _ p.name hrest]
        exact lookup_updateAssoc_self ctx p.name t
      · simp only [List.foldl_cons]
        exact ih _ hnd.2 p t hmemr

/-- C7: under the equal-length precondition, updateInputPlaceholders
overwrites each listed placeholder's binding in the context with the
corresponding tensor and leaves every unlisted binding unchanged; if any
supplied tensor's shape differs from its placeholder's declared shape it
reports ShapeMismatchError and the context is unchanged (all-or-nothing). -/
theorem updateInputPlaceholders_spec (ctx : Context) (ph : List Placeholder)
    (inputs : List Tensor) (hlen : ph.length = inputs.length) :
    (((ph.zip inputs).all fun pt => pt.2.dims == pt.1.dims) = false →
        updateInputPlaceholders ctx ph inputs =
          (some GlowError.ShapeMismatchError, ctx)) ∧
    (((ph.zip inputs).all fun pt => pt.2.dims == pt.1.dims) = true →
        (updateInputPlaceholders ctx ph inputs).1 = none ∧
        (∀ n, n ∉ ph.map Placeholder.name →
            ((updateInputPlaceholders ctx ph inputs).2.lookup n =
              ctx.lookup n)) ∧
        ((ph.map Placeholder.name).Nodup →
            ∀ p t, (p, t) ∈ ph.zip inputs →
              (updateInputPlaceholders ctx ph inputs).2.lookup p.name =
                some t)) := by
  have hfst : (ph.zip inputs).map Prod.fst = ph :=
    List.map_fst_zip ph inputs (le_of_eq hlen)
  constructor
  · intro hfail
    simp [updateInputPlaceholders, hfail]
  · intro hok
    refine ⟨by simp [updateInputPlaceholders, hok], ?_, ?_⟩
    · intro n hn
      simp only [updateInputPlaceholders, hok, if_pos]
      apply foldl_update_lookup_notin
      intro pt hpt hcontra
      apply hn
      have h1 : pt.1 ∈ ph := hfst ▸ List.mem_map_of_mem Prod.fst hpt
      exact hcontra ▸ List.mem_map_of_mem Placeholder.name h1
    · intro hnd p t hmem
      simp only [updateInputPlaceholders, hok, if_pos]
      apply foldl_update_lookup_mem
      · have hmm : ((ph.zip inputs).map fun pt => pt.1.name) =
            ((ph.zip inputs).map Prod.fst).map Placeholder.name := by
          rw [List.map_map]
          rfl
        rw [hmm, hfst]
        exact hnd
      · exact hmem

/-- Witness for C7: a concrete mismatching call reports ShapeMismatchError
and returns the context unchanged. -/
theorem updateInputPlaceholders_spec_witness :
    updateInputPlaceholders [("z", Tensor.mk [7])]
        [Placeholder.mk "x" [2], Placeholder.mk "y" [5]]
        [Tensor.mk [2], Tensor.mk [4]] =
      (some GlowError.ShapeMismatchError, [("z", Tensor.mk [7])]) :=
  (updateInputPlaceholders_spec [("z", Tensor.mk [7])]
      [Placeholder.mk "x" [2], Placeholder.mk "y" [5]]
      [Tensor.mk [2], Tensor.mk [4]] (by decide)).1 (by decide)

/-!  The compiled-function registry (header lines 48-49, 74-93). -/

/-- Modelled from the spec: compile(mode, F, clearOtherFunctions) runs the
optimizer and the backend lowering (modelled abstractly by the lower
argument, an external collaborator contract) and registers the artifact
under the name of F; when clearOtherFunctions is true the existing registry
is discarded first.  The body lives in ExecutionEngine.cpp, absent from this
tree. -/
def ExecutionEngine.compile
    (lower : CompilationMode → GlowFunction → CompiledFunction)
    (e : ExecutionEngine) (mode : CompilationMode) (F : GlowFunction)
    (clearOtherFunctions : Bool) : ExecutionEngine :=
  if clearOtherFunctions then
    { e with compiledFunctions_ := [(F.name, lower mode F)] }
  else
    { e with compiledFunctions_ :=
        updateAssoc e.compiledFunctions_ F.name (lower mode F) }

/-- Modelled from the spec: getCompiledFunction() returns the sole registered
compiled function and fails with LookupError when zero or several are
registered (body absent from this tree). -/
def ExecutionEngine.getCompiledFunction (e : ExecutionEngine) :
    Except GlowError CompiledFunction :=
  match e.compiledFunctions_ with
  | [(_, cf)] => Except.ok cf
  | _ => Except.error GlowError.LookupError

/-- Modelled from the spec: getCompiledFunction(name) returns the entry
keyed by name and fails with LookupError when that name is absent (body
absent from this tree). -/
def ExecutionEngine.getCompiledFunctionNamed (e : ExecutionEngine)
    (name : String) : Except GlowError CompiledFunction :=
  match e.compiledFunctions_.lookup name with
  | some cf => Except.ok cf
  | none => Except.error GlowError.LookupError

/-- Modelled from the spec: run(ctx) resolves its target under the same
ambiguity rule as the no-name lookup and executes it exactly once; exec
models the opaque backend invocation performed by runInternal (body absent
from this tree). -/
def ExecutionEngine.run (exec : CompiledFunction → Context → Context)
    (e : ExecutionEngine) (ctx : Context) : Except GlowError Context :=
  match e.getCompiledFunction with
  | Except.ok cf => Except.ok (exec cf ctx)
  | Except.error err => Except.error err

/-- C3: compile with clearOtherFunctions=true leaves the registry containing
exactly the one entry keyed by the name of F; with clearOtherFunctions=false
it inserts or overwrites only that entry and every other registered function
stays retrievable, unchanged; the backend and ownership flag are untouched
either way. -/
theorem compile_registry
    (lower : CompilationMode → GlowFunction → CompiledFunction)
    (e : ExecutionEngine) (mode : CompilationMode) (F : GlowFunction) :
    ((e.compile lower mode F true).compiledFunctions_ =
        [(F.name, lower mode F)]) ∧
    ((e.compile lower mode F false).compiledFunctions_.lookup F.name =
        some (lower mode F)) ∧
    (∀ n, n ≠ F.name →
        (e.compile lower mode F false).compiledFunctions_.lookup n =
          e.compiledFunctions_.lookup n) ∧
    (∀ b : Bool, (e.compile lower mode F b).backend_ = e.backend_ ∧
        (e.compile lower mode F b).ownsBackend_ = e.ownsBackend_) := by
  refine ⟨rfl, ?_, ?_, ?_⟩
  · simp only [ExecutionEngine.compile, if_neg Bool.false_ne_true]
    exact lookup_updateAssoc_self e.compiledFunctions_ F.name (lower mode F)
  · intro n hn
    simp only [ExecutionEngine.compile, if_neg Bool.false_ne_true]
    exact lookup_updateAssoc_ne e.compiledFunctions_ F.name n (lower mode F) hn
  · intro b
    cases b <;> exact ⟨rfl, rfl⟩

/-- Witness for C3: compiling A, then B with clearOtherFunctions=false,
leaves A retrievable by name with its original artifact. -/
theorem compile_registry_witness :
    ((ExecutionEngine.mk (Backend.mk 0 BackendKind.Interpreter fun _ _ => false)
          true [("A", 11)]).compile (fun _ F => F.name.length) CompilationMode.Infer
        (GlowFunction.mk "B") false).compiledFunctions_.lookup "A" =
      some 11 := by
  have h := compile_registry (fun _ F => F.name.length)
    (ExecutionEngine.mk (Backend.mk 0 BackendKind.Interpreter fun _ _ => false)
      true [("A", 11)]) CompilationMode.Infer (GlowFunction.mk "B")
  rw [h.2.2.1 "A" (by decide)]
  decide

/-- C5: the no-name lookup returns the sole registered compiled function and
fails with LookupError when zero or more than one is registered; the named
lookup returns the entry keyed by the name and fails when absent; run with
no name resolves its target under the same ambiguity rule. -/
theorem getCompiledFunction_spec (e : ExecutionEngine)
    (exec : CompiledFunction → Context → Context) (ctx : Context)
    (name : String) :
    (∀ n cf, e.compiledFunctions_ = [(n, cf)] →
        e.getCompiledFunction = Except.ok cf) ∧
    (e.compiledFunctions_.length ≠ 1 →
        e.getCompiledFunction = Except.error GlowError.LookupError) ∧
    (∀ cf, e.compiledFunctions_.lookup name = some cf →
        e.getCompiledFunctionNamed name = Except.ok cf) ∧
    (e.compiledFunctions_.lookup name = none →
        e.getCompiledFunctionNamed name = Except.error GlowError.LookupError) ∧
    (∀ cf, e.getCompiledFunction = Except.ok cf →
        e.run exec ctx = Except.ok (exec cf ctx)) ∧
    (∀ err, e.getCompiledFunction = Except.error err →
        e.run exec ctx = Except.error err) := by
  refine ⟨?_, ?_, ?_, ?_, ?_, ?_⟩
  · intro n cf h
    simp [ExecutionEngine.getCompiledFunction, h]
  · intro h
    match hl : e.compiledFunctions_ with
    | [] => simp [ExecutionEngine.getCompiledFunction, hl]
    | [(n, cf)] => rw [hl] at h; simp at h
    | (n, cf) :: q :: rest => simp [ExecutionEngine.getCompiledFunction, hl]
  · intro cf h
    simp [ExecutionEngine.getCompiledFunctionNamed, h]
  · intro h
    simp [ExecutionEngine.getCompiledFunctionNamed, h]
  · intro cf h
    simp [ExecutionEngine.run, h]
  · intro err h
    simp [ExecutionEngine.run, h]

/-- Witness for C5: with two registered functions the no-name lookup and the
no-name run both fail with LookupError; the named lookup still succeeds. -/
theorem getCompiledFunction_spec_witness :
    (ExecutionEngine.mk (Backend.mk 0 BackendKind.Interpreter fun _ _ => false)
          true [("A", 11), ("B", 22)]).getCompiledFunction =
        Except.error GlowError.LookupError ∧
    (ExecutionEngine.mk (Backend.mk 0 BackendKind.Interpreter fun _ _ => false)
          true [("A", 11), ("B", 22)]).run (fun _ c => c) [] =
        Except.error GlowError.LookupError ∧
    (ExecutionEngine.mk (Backend.mk 0 BackendKind.Interpreter fun _ _ => false)
          true [("A", 11), ("B", 22)]).getCompiledFunctionNamed "B" =
        Except.ok 22 := by
  have h := getCompiledFunction_spec
    (ExecutionEngine.mk (Backend.mk 0 BackendKind.Interpreter fun _ _ => false)
      true [("A", 11), ("B", 22)]) (fun _ c => c) [] "B"
  have h1 := h.2.1 (by decide)
  exact ⟨h1, h.2.2.2.2.2 GlowError.LookupError h1, h.2.2.1 22 (by decide)⟩

/-!  isOpSupported: the one body present in the header (lines 82-85). -/

/-- Embedded from the source (header lines 82-85): the method body is the
single statement return backend_->isOpSupported(opKind, elementTy). -/
def ExecutionEngine.isOpSupported (e : ExecutionEngine) (opKind : OpKind)
    (elementTy : ElemKind) : Bool :=
  e.backend_.isOpSupported opKind elementTy

/-- State-passing view of the same const method: the body is a single return
of the backend delegate, so the engine state is returned unchanged. -/
def ExecutionEngine.isOpSupportedSt (e : ExecutionEngine) (opKind : OpKind)
    (elementTy : ElemKind) : Bool × ExecutionEngine :=
  (e.backend_.isOpSupported opKind elementTy, e)

/-- C6: isOpSupported returns exactly the active backend's capability
predicate at the queried pair, always yields a boolean (false is the
unsupported case, not a failure), and leaves the engine — backend, ownership
flag and registry — unchanged. -/
theorem isOpSupported_delegates (e : ExecutionEngine) (opKind : OpKind)
    (elementTy : ElemKind) :
    e.isOpSupported opKind elementTy =
        e.backend_.isOpSupported opKind elementTy ∧
    (e.isOpSupportedSt opKind elementTy).1 =
        e.backend_.isOpSupported opKind elementTy ∧
    (e.isOpSupportedSt opKind elementTy).2 = e ∧
    (e.isOpSupportedSt opKind elementTy).2.compiledFunctions_ =
        e.compiledFunctions_ ∧
    (e.isOpSupportedSt opKind elementTy).2.backend_ = e.backend_ ∧
    (e.isOpSupportedSt opKind elementTy).2.ownsBackend_ = e.ownsBackend_ :=
  ⟨rfl, rfl, rfl, rfl, rfl, rfl⟩

/-!  save (header lines 95-102; body absent). -/

/-- A bundle output directory listing: pairs of directory and file name. -/
abbrev FileSystem := List (String × String)

/-- Modelled from the spec: save(mode, F, outputDir, networkName) performs
its own internal optimize+compile sequence and writes a backend-defined set
of bundle files (modelled abstractly by the bundleFiles argument, which
yields the backend-chosen name endings) under outputDir, every generated
file name starting with networkName; the run-time registry is neither read
nor changed and no prior compile() call is needed.  The body lives in
ExecutionEngine.cpp, absent from this tree. -/
def ExecutionEngine.save
    (bundleFiles : CompilationMode → GlowFunction → List String)
    (e : ExecutionEngine) (mode : CompilationMode) (F : GlowFunction)
    (outputDir networkName : String) (fs : FileSystem) :
    ExecutionEngine × FileSystem :=
  (e, fs ++ (bundleFiles mode F).map
        (fun ending => (outputDir, networkName ++ ending)))

/-- C8: save leaves the engine — in particular the compiled-function
registry — exactly as it was (so it also succeeds with an empty registry,
before any compile call), keeps every pre-existing file, and every file it
adds lives under outputDir with a name beginning with networkName. -/
theorem save_frame (bundleFiles : CompilationMode → GlowFunction → List String)
    (e : ExecutionEngine) (mode : CompilationMode) (F : GlowFunction)
    (outputDir networkName : String) (fs : FileSystem) :
    ((e.save bundleFiles mode F outputDir networkName fs).1 = e) ∧
    ((e.save bundleFiles mode F outputDir networkName fs).1.compiledFunctions_
        = e.compiledFunctions_) ∧
    (∀ f ∈ fs, f ∈ (e.save bundleFiles mode F outputDir networkName fs).2) ∧
    (∀ f ∈ (e.save bundleFiles mode F outputDir networkName fs).2,
        f ∈ fs ∨ (f.1 = outputDir ∧ ∃ s, f.2 = networkName ++ s)) := by
  refine ⟨rfl, rfl, ?_, ?_⟩
  · intro f hf
    simp [ExecutionEngine.save]
    exact Or.inl hf
  · intro f hf
    simp only [ExecutionEngine.save, List.mem_append, List.mem_map] at hf
    rcases hf with hold | ⟨s, _, hs⟩
    · exact Or.inl hold
    · refine Or.inr ⟨?_, s, ?_⟩
      · rw [← hs]
      · rw [← hs]

/-- Witness for C8: a concrete save keeps the old file and the registry, and
the generated file sits under the output directory with the network-name
beginning. -/
theorem save_frame_witness :
    ((ExecutionEngine.mk (Backend.mk 0 BackendKind.Interpreter fun _ _ => false)
          true []).save (fun _ _ => [".o"]) CompilationMode.Infer
        (GlowFunction.mk "f") "dir" "net"
        [("d0", "old")]).1.compiledFunctions_ = [] ∧
    ("d0", "old") ∈
      ((ExecutionEngine.mk (Backend.mk 0 BackendKind.Interpreter fun _ _ => false)
            true []).save (fun _ _ => [".o"]) CompilationMode.Infer
          (GlowFunction.mk "f") "dir" "net" [("d0", "old")]).2 := by
  have h := save_frame (fun _ _ => [".o"])
    (ExecutionEngine.mk (Backend.mk 0 BackendKind.Interpreter fun _ _ => false)
      true []) CompilationMode.Infer (GlowFunction.mk "f") "dir" "net"
    [("d0", "old")]
  exact ⟨h.2.1, h.2.2.1 ("d0", "old") (by decide)⟩

/-!  Backend lifetime (header lines 42-46, 55-66; bodies absent).  The heap
is modelled by a World: a fresh-identity counter and the list of backend
identities that have been deleted, in deletion order. -/

/-- The heap of backend instances: nextId is the next fresh identity, dead
records every deletion performed (a well-behaved program never deletes the
same instance twice, so an identity should appear at most once). -/
structure World where
  nextId : Nat
  dead : List Nat

/-- Allocate a built-in backend of the given kind; builtin supplies the
capability predicate of each built-in kind (an external collaborator). -/
def allocBackend (builtin : BackendKind → OpKind → ElemKind → Bool)
    (k : BackendKind) (w : World) : World × Backend :=
  ({ w with nextId := w.nextId + 1 }, Backend.mk w.nextId k (builtin k))

/-- Delete a backend instance: its identity is recorded as dead. -/
def destroyBackend (w : World) (b : Backend) : World :=
  { w with dead := b.bid :: w.dead }

/-- Modelled from the spec and the header comment on ownsBackend_ (lines
43-46): ~ExecutionEngine deletes backend_ exactly when ownsBackend_ is
true (body absent from this tree). -/
def ExecutionEngine.destructor (e : ExecutionEngine) (w : World) : World :=
  if e.ownsBackend_ then destroyBackend w e.backend_ else w

/-- Modelled from the spec (section 4.1 Construct) together with the header
default argument (line 55): constructing an engine allocates a built-in
backend of the requested kind, owns it, and starts with an empty registry. -/
def ExecutionEngine.construct (builtin : BackendKind → OpKind → ElemKind → Bool)
    (k : BackendKind) (w : World) : World × ExecutionEngine :=
  let wb := allocBackend builtin k w
  (wb.1, ExecutionEngine.mk wb.2 true [])

/-- The header declares the constructor as ExecutionEngine(BackendKind
backendKind = BackendKind::Interpreter) (line 55): calling it with no
argument selects the Interpreter kind. -/
def ExecutionEngine.constructDefault
    (builtin : BackendKind → OpKind → ElemKind → Bool) (w : World) :
    World × ExecutionEngine :=
  ExecutionEngine.construct builtin BackendKind.Interpreter w

/-- Modelled from the spec: setBackend(backendKind) replaces the current
backend with a newly owned instance of the requested kind, deleting the
previous backend when it was owned (body absent from this tree). -/
def ExecutionEngine.setBackendKind
    (builtin : BackendKind → OpKind → ElemKind → Bool)
    (e : ExecutionEngine) (w : World) (k : BackendKind) :
    World × ExecutionEngine :=
  let w1 := if e.ownsBackend_ then destroyBackend w e.backend_ else w
  let wb := allocBackend builtin k w1
  (wb.1, { e with backend_ := wb.2, ownsBackend_ := true })

/-- Modelled from the spec: setBackend(backend, ownsBackend) installs a
caller-supplied backend with the given ownership flag, deleting the replaced
backend when it was owned (body absent from this tree). -/
def ExecutionEngine.setBackend (e : ExecutionEngine) (w : World)
    (b : Backend) (owns : Bool) : World × ExecutionEngine :=
  ((if e.ownsBackend_ then destroyBackend w e.backend_ else w),
    { e with backend_ := b, ownsBackend_ := owns })

/-- The header declares setBackend(Backend *backend, bool ownsBackend =
true) (lines 63-66): calling it without the second argument installs the
backend as owned. -/
def ExecutionEngine.setBackendDefault (e : ExecutionEngine) (w : World)
    (b : Backend) : World × ExecutionEngine :=
  e.setBackend w b true

/-- One replacement call against the engine, of either overload. -/
inductive EngineOp where
  | setKind (k : BackendKind)
  | setCustom (b : Backend) (owns : Bool)

/-- Interpretation of one replacement call. -/
def engineStep (builtin : BackendKind → OpKind → ElemKind → Bool)
    (s : World × ExecutionEngine) (op : EngineOp) : World × ExecutionEngine :=
  match op with
  | EngineOp.setKind k => s.2.setBackendKind builtin s.1 k
  | EngineOp.setCustom b owns => s.2.setBackend s.1 b owns

/-- A sequence of replacement calls. -/
def runEngineOps (builtin : BackendKind → OpKind → ElemKind → Bool)
    (ops : List EngineOp) (s : World × ExecutionEngine) :
    World × ExecutionEngine :=
  ops.foldl (engineStep builtin) s

/-- Whether a call hands the instance with the given identity back to the
engine as an owned backend: the one way a borrowed instance can later come
under the engine's delete responsibility. -/
def reinstallsOwned (bid : Nat) (op : EngineOp) : Bool :=
  match op with
  | EngineOp.setKind _ => false
  | EngineOp.setCustom b owns => b.bid == bid && owns

lemma destructor_count (bid : Nat) (w : World) (e : ExecutionEngine)
    (h : e.backend_.bid = bid → e.ownsBackend_ = false) :
    (e.destructor w).dead.count bid = w.dead.count bid := by
  by_cases how : e.ownsBackend_ = true
  · have hne : e.backend_.bid ≠ bid := by
      intro hc
      rw [h hc] at how
      cases how
    simp [ExecutionEngine.destructor, how, destroyBackend, List.count_cons, hne]
  · simp [ExecutionEngine.destructor, how]

lemma runEngineOps_preserves (builtin : BackendKind → OpKind → ElemKind → Bool)
    (bid : Nat) (ops : List EngineOp) :
    ∀ (w : World) (e : ExecutionEngine),
      bid < w.nextId →
      (e.backend_.bid = bid → e.ownsBackend_ = false) →
      (∀ op ∈ ops, reinstallsOwned bid op = false) →
      ((runEngineOps builtin ops (w, e)).1.dead.count bid =
          w.dead.count bid ∧
        bid < (runEngineOps builtin ops (w, e)).1.nextId ∧
        ((runEngineOps builtin ops (w, e)).2.backend_.bid = bid →
          (runEngineOps builtin ops (w, e)).2.ownsBackend_ = false)) := by
  induction ops with
  | nil =>
      intro w e hlt hinv _
      exact ⟨rfl, hlt, hinv⟩
  | cons op rest ih =>
      intro w e hlt hinv hops
      have hrest : ∀ o ∈ rest, reinstallsOwned bid o = false := by
        intro o ho
        exact hops o (List.mem_cons_of_mem op ho)
      have hcount : (engineStep builtin (w, e) op).1.dead.count bid =
          w.dead.count bid := by
        cases op with
        | setKind k =>
            simp only [engineStep, ExecutionEngine.setBackendKind, allocBackend]
            exact destructor_count bid w e hinv
        | setCustom b owns =>
            simp only [engineStep, ExecutionEngine.setBackend]
            exact destructor_count bid w e hinv
      have hnext : bid < (engineStep builtin (w, e) op).1.nextId := by
        cases op with
        | setKind k =>
            simp only [engineStep, ExecutionEngine.setBackendKind, allocBackend]
            by_cases how : e.ownsBackend_ = true <;>
              simp [ExecutionEngine.destructor, destroyBackend, how] <;> omega
        | setCustom b owns =>
            simp only [engineStep, ExecutionEngine.setBackend]
            by_cases how : e.ownsBackend_ = true <;>
              simp [destroyBackend, how] <;> omega
      have hinv2 : (engineStep builtin (w, e) op).2.backend_.bid = bid →
          (engineStep builtin (w, e) op).2.ownsBackend_ = false := by
        cases op with
        | setKind k =>
            intro hc
            exfalso
            simp only [engineStep, ExecutionEngine.setBackendKind,
              allocBackend] at hc
            have : w.nextId = bid ∨
                (destroyBackend w e.backend_).nextId = bid := by
              by_cases how : e.ownsBackend_ = true <;>
                simp [how] at hc <;> simp [destroyBackend] at * <;> omega
            rcases this with h1 | h1
            · omega
            · simp [destroyBackend] at h1; omega
        | setCustom b owns =>
            intro hc
            have hm := hops (EngineOp.setCustom b owns)
              (List.mem_cons_self _ rest)
            simp only [engineStep, ExecutionEngine.setBackend] at hc ⊢
            simp only [reinstallsOwned, hc, beq_self_eq_true,
              Bool.true_and] at hm
            exact hm
      have := ih (engineStep builtin (w, e) op).1
        (engineStep builtin (w, e) op).2 hnext hinv2 hrest
      simpa [runEngineOps, List.foldl_cons, hcount] using this

/-- C4 (amended): a backend installed with ownsBackend=false is never
deleted by the engine — not by any sequence of later setBackend calls of
either overload, provided none of them re-hands that same instance to the
engine as owned, and not by engine destruction; conversely a backend held as
owned is deleted exactly once, on its replacement or on engine teardown. -/
theorem borrowed_backend_lifetime
    (builtin : BackendKind → OpKind → ElemKind → Bool) (w : World)
    (e : ExecutionEngine) (b : Nat) (ops : List EngineOp)
    (hlt : b < w.nextId) (hdead : b ∉ w.dead) (hcur : e.backend_.bid = b)
    (hops : ∀ op ∈ ops, reinstallsOwned b op = false) :
    (e.ownsBackend_ = false →
        b ∉ ((runEngineOps builtin ops (w, e)).2.destructor
              (runEngineOps builtin ops (w, e)).1).dead) ∧
    (e.ownsBackend_ = true →
        ((runEngineOps builtin ops (w, e)).2.destructor
              (runEngineOps builtin ops (w, e)).1).dead.count b = 1) := by
  have hc0 : w.dead.count b = 0 := List.count_eq_zero.mpr hdead
  constructor
  · intro hnotown
    have hpres := runEngineOps_preserves builtin b ops w e hlt
      (fun _ => hnotown) hops
    have hfin := destructor_count b (runEngineOps builtin ops (w, e)).1
      (runEngineOps builtin ops (w, e)).2 hpres.2.2
    refine List.count_eq_zero.mp ?_
    rw [hfin, hpres.1, hc0]
  · intro hown
    cases ops with
    | nil =>
        simp only [runEngineOps, List.foldl_nil, ExecutionEngine.destructor,
          hown, if_pos, destroyBackend, hcur]
        simp [List.count_cons, hc0]
    | cons op rest =>
        have hrest : ∀ o ∈ rest, reinstallsOwned b o = false := by
          intro o ho
          exact hops o (List.mem_cons_of_mem op ho)
        have hcount1 : (engineStep builtin (w, e) op).1.dead.count b = 1 := by
          cases op with
          | setKind k =>
              simp only [engineStep, ExecutionEngine.setBackendKind,
                allocBackend, ExecutionEngine.destructor, hown, if_pos,
                destroyBackend, hcur]
              simp [List.count_cons, hc0]
          | setCustom b' owns' =>
              simp only [engineStep, ExecutionEngine.setBackend, hown, if_pos,
                destroyBackend, hcur]
              simp [List.count_cons, hc0]
        have hnext : b < (engineStep builtin (w, e) op).1.nextId := by
          cases op with
          | setKind k =>
              simp only [engineStep, ExecutionEngine.setBackendKind,
                allocBackend, hown, if_pos, destroyBackend]
              omega
          | setCustom b' owns' =>
              simp only [engineStep, ExecutionEngine.setBackend, hown, if_pos,
                destroyBackend]
              exact hlt
        have hinv2 : (engineStep builtin (w, e) op).2.backend_.bid = b →
            (engineStep builtin (w, e) op).2.ownsBackend_ = false := by
          cases op with
          | setKind k =>
              intro hc
              exfalso
              simp only [engineStep, ExecutionEngine.setBackendKind,
                allocBackend, hown, if_pos, destroyBackend] at hc
              omega
          | setCustom b' owns' =>
              intro hc
              have hm := hops (EngineOp.setCustom b' owns')
                (List.mem_cons_self _ rest)
              simp only [engineStep, ExecutionEngine.setBackend] at hc ⊢
              simp only [reinstallsOwned, hc, beq_self_eq_true,
                Bool.true_and] at hm
              exact hm
        have hpres := runEngineOps_preserves builtin b rest
          (engineStep builtin (w, e) op).1 (engineStep builtin (w, e) op).2
          hnext hinv2 hrest
        have hruns : runEngineOps builtin (op :: rest) (w, e) =
            runEngineOps builtin rest (engineStep builtin (w, e) op) := by
          simp [runEngineOps, List.foldl_cons]
        rw [hruns]
        have hfin := destructor_count b
          (runEngineOps builtin rest (engineStep builtin (w, e) op)).1
          (runEngineOps builtin rest (engineStep builtin (w, e) op)).2
          (by simpa using hpres.2.2)
        rw [hfin]
        have := hpres.1
        simpa [hcount1] using this

/-- Witness for C4: a concrete borrowed backend (identity 0) survives a
setBackend(kind) call, a setBackend(other, true) call, and engine
destruction. -/
theorem borrowed_backend_lifetime_witness :
    (0 : Nat) ∉ ((runEngineOps (fun _ _ _ => true)
          [EngineOp.setKind BackendKind.CPU,
            EngineOp.setCustom (Backend.mk 5 BackendKind.OpenCL fun _ _ => true)
              true]
          (World.mk 1 [],
            ExecutionEngine.mk
              (Backend.mk 0 BackendKind.Interpreter fun _ _ => false)
              false [])).2.destructor
        (runEngineOps (fun _ _ _ => true)
          [EngineOp.setKind BackendKind.CPU,
            EngineOp.setCustom (Backend.mk 5 BackendKind.OpenCL fun _ _ => true)
              true]
          (World.mk 1 [],
            ExecutionEngine.mk
              (Backend.mk 0 BackendKind.Interpreter fun _ _ => false)
              false [])).1).dead :=
  (borrowed_backend_lifetime (fun _ _ _ => true) (World.mk 1 [])
      (ExecutionEngine.mk (Backend.mk 0 BackendKind.Interpreter fun _ _ => false)
        false [])
      0
      [EngineOp.setKind BackendKind.CPU,
        EngineOp.setCustom (Backend.mk 5 BackendKind.OpenCL fun _ _ => true)
          true]
      (by decide) (by decide) rfl
      (by
        intro op hop
        rcases List.mem_cons.mp hop with h | h
        · rw [h]; rfl
        · rcases List.mem_cons.mp h with h2 | h2
          · rw [h2]; rfl
          · cases h2)).1 rfl

/-- Counterexample to C4 as stated: the universal reading over all
subsequent setBackend calls fails, because a later call can hand the very
same instance back to the engine as owned, after which the next replacement
deletes it.  Concretely: instance 0 is installed with ownsBackend=false,
a subsequent setBackend(instance 0, true) re-installs it owned, and a
subsequent setBackend(kind) then deletes instance 0. -/
theorem borrowed_backend_lifetime_counterexample :
    (0 : Nat) ∈ (runEngineOps (fun _ _ _ => true)
        [EngineOp.setCustom (Backend.mk 0 BackendKind.OpenCL fun _ _ => false)
            true,
          EngineOp.setKind BackendKind.CPU]
        ((ExecutionEngine.mk
            (Backend.mk 1 BackendKind.Interpreter fun _ _ => false) true
            []).setBackend (World.mk 2 [])
          (Backend.mk 0 BackendKind.OpenCL fun _ _ => false)
          false)).1.dead := by
  decide

/-- C9: the constructor default selects the Interpreter backend kind, the
constructed engine owns that backend, and the engine destructor therefore
deletes it. -/
theorem construct_default_interpreter
    (builtin : BackendKind → OpKind → ElemKind → Bool) (w : World) :
    (ExecutionEngine.constructDefault builtin w =
        ExecutionEngine.construct builtin BackendKind.Interpreter w) ∧
    ((ExecutionEngine.constructDefault builtin w).2.backend_.kind =
        BackendKind.Interpreter) ∧
    ((ExecutionEngine.constructDefault builtin w).2.ownsBackend_ = true) ∧
    (((ExecutionEngine.constructDefault builtin w).2.destructor
          (ExecutionEngine.constructDefault builtin w).1).dead =
        (ExecutionEngine.constructDefault builtin w).2.backend_.bid ::
          w.dead) :=
  ⟨rfl, rfl, rfl, rfl⟩

/-- C10: calling the caller-supplied-backend overload without the second
argument installs the backend as owned (the default is true), so the engine
deletes it on teardown and on replacement by either overload. -/
theorem setBackend_default_owns (e : ExecutionEngine) (w : World)
    (b : Backend) (builtin : BackendKind → OpKind → ElemKind → Bool)
    (k : BackendKind) (b' : Backend) (owns' : Bool) :
    (e.setBackendDefault w b = e.setBackend w b true) ∧
    ((e.setBackendDefault w b).2.ownsBackend_ = true) ∧
    (b.bid ∈ ((e.setBackendDefault w b).2.destructor
          (e.setBackendDefault w b).1).dead) ∧
    (b.bid ∈ ((e.setBackendDefault w b).2.setBackendKind builtin
          (e.setBackendDefault w b).1 k).1.dead) ∧
    (b.bid ∈ ((e.setBackendDefault w b).2.setBackend
          (e.setBackendDefault w b).1 b' owns').1.dead) := by
  refine ⟨rfl, rfl, ?_, ?_, ?_⟩
  · simp [ExecutionEngine.setBackendDefault, ExecutionEngine.setBackend,
      ExecutionEngine.destructor, destroyBackend]
  · simp [ExecutionEngine.setBackendDefault, ExecutionEngine.setBackend,
      ExecutionEngine.setBackendKind, ExecutionEngine.destructor,
      allocBackend, destroyBackend]
  · simp [ExecutionEngine.setBackendDefault, ExecutionEngine.setBackend,
      destroyBackend]

end Glow
